import Mathlib

/-!
Shallow embedding of the TODO store in
`2026/04_Webアプリケーション開発基礎/assignment/backend/main.go`.

The Go `todoStore` holds an ordered slice of `Todo` items, a next-identifier
counter `nextID`, and a file path used for persistence.  Here the in-memory
part is the structure `todoStore`; the backing file is modelled by the
external value `FileState` (the outcome of `os.ReadFile` / `json.Unmarshal`),
and the success or failure of `os.WriteFile` inside `save` is modelled by a
boolean parameter `saveOk` threaded through each mutating operation.
Go `int` is modelled as `Int`.
-/

/-- Go struct `Todo` (`main.go`): `ID int`, `Title string`, `Completed bool`. -/
structure Todo where
  id : Int
  title : String
  completed : Bool
deriving Repr, DecidableEq

/-- Go struct `updateTodoRequest`: pointer fields distinguish "absent" from
the zero value, modelled with `Option`. -/
structure updateTodoRequest where
  title : Option String
  completed : Option Bool
deriving Repr, DecidableEq

/-- In-memory part of Go struct `todoStore`: the slice `todos` and the
counter `nextID`.  The mutex and the file path are not data. -/
structure todoStore where
  todos : List Todo
  nextID : Int
deriving Repr, DecidableEq

/-- Errors the store can produce, as classified by the spec:
`validation` is Go `errors.New("title is required")`, `notFound` is
`echo.ErrNotFound`, `persistence` is a failed `save`, and
`dataCorruption` is a failed `json.Unmarshal` during `load`. -/
inductive StoreError where
  | validation
  | notFound
  | persistence
  | dataCorruption
deriving Repr, DecidableEq

/-- Outcome of reading the backing file: `os.ReadFile` reports the file
missing, the file is present but zero-length, `json.Unmarshal` fails on its
contents, or it decodes to a list of todos. -/
inductive FileState where
  | missing
  | emptyFile
  | malformed
  | wellFormed (todos : List Todo)
deriving Repr, DecidableEq

/-- Go loop in `todoStore.load`: `maxID := 0; for _, t := range s.todos
{ if t.ID > maxID { maxID = t.ID } }`. -/
def maxID (todos : List Todo) : Int :=
  todos.foldl (fun m t => if t.id > m then t.id else m) 0

namespace todoStore

/-- Go `todoStore.load`: a missing or zero-length file yields the empty
collection with `nextID = 1`; a file that fails to decode is a fatal error;
otherwise the decoded list is installed and `nextID` becomes `maxID + 1`. -/
def load (file : FileState) : Except StoreError todoStore :=
  match file with
  | .missing => .ok { todos := [], nextID := 1 }
  | .emptyFile => .ok { todos := [], nextID := 1 }
  | .malformed => .error .dataCorruption
  | .wellFormed ts => .ok { todos := ts, nextID := maxID ts + 1 }

/-- Go `todoStore.save` writes the whole collection over the backing file;
`ok` is whether `os.WriteFile` succeeds.  On failure the previous file
contents remain (the clean-failure model of a failed write). -/
def writeFile (ok : Bool) (todos : List Todo) (disk : FileState) : FileState :=
  if ok then .wellFormed todos else disk

/-- Go `todoStore.findIndexByID`, i.e. `slices.IndexFunc`: index of the first
item whose `ID` equals `id`, `none` for Go's `-1`. -/
def findIndexByID (id : Int) : List Todo → Option Nat
  | [] => none
  | t :: ts => if t.id = id then some 0 else (findIndexByID id ts).map (· + 1)

/-- Go `todoStore.list`: returns a defensive copy of the slice, which in a
pure model is the list itself; the store is not changed. -/
def list (s : todoStore) : List Todo :=
  s.todos

/-- Go `todoStore.create`: reject an empty title before doing anything; then
build the item from `nextID` (with `Completed` the zero value `false`),
increment the counter, append, and save.  A failed save reports an error but
the mutation stays. -/
def create (saveOk : Bool) (title : String) (s : todoStore) :
    todoStore × Except StoreError Todo :=
  if title = "" then (s, .error .validation)
  else
    let todo : Todo := { id := s.nextID, title := title, completed := false }
    let s1 : todoStore := { todos := s.todos ++ [todo], nextID := s.nextID + 1 }
    if saveOk then (s1, .ok todo) else (s1, .error .persistence)

/-- Field updates performed by Go `todoStore.update` once validation has
passed: set `Title` when provided, then `Completed` when provided. -/
def applyReq (req : updateTodoRequest) (t : Todo) : Todo :=
  let t1 := match req.title with
    | some nt => { t with title := nt }
    | none => t
  match req.completed with
  | some c => { t1 with completed := c }
  | none => t1

/-- Go `todoStore.update`: not-found when the id is absent; a provided empty
title is rejected before any field is written (so a simultaneously provided
`completed` is not applied either); otherwise the provided fields are set in
place and the collection saved.  A failed save reports an error but the
mutation stays. -/
def update (saveOk : Bool) (id : Int) (req : updateTodoRequest) (s : todoStore) :
    todoStore × Except StoreError Todo :=
  match findIndexByID id s.todos with
  | none => (s, .error .notFound)
  | some idx =>
    if req.title = some "" then (s, .error .validation)
    else
      match s.todos[idx]? with
      | none => (s, .error .notFound)  -- unreachable: idx is a valid index
      | some t0 =>
        let t1 := applyReq req t0
        let s1 : todoStore := { s with todos := s.todos.set idx t1 }
        if saveOk then (s1, .ok t1) else (s1, .error .persistence)

/-- Go `todoStore.delete`: not-found when the id is absent; otherwise
`append(s.todos[:idx], s.todos[idx+1:]...)` removes the item at `idx` and the
collection is saved.  A failed save reports an error but the removal stays. -/
def delete (saveOk : Bool) (id : Int) (s : todoStore) :
    todoStore × Except StoreError Unit :=
  match findIndexByID id s.todos with
  | none => (s, .error .notFound)
  | some idx =>
    let s1 : todoStore := { s with todos := s.todos.eraseIdx idx }
    if saveOk then (s1, .ok ()) else (s1, .error .persistence)

end todoStore

/-- Run a sequence of `create` calls serially, in order, collecting each
call's result. -/
def runCreates (saveOk : Bool) (titles : List String) (s : todoStore) :
    todoStore × List (Except StoreError Todo) :=
  match titles with
  | [] => (s, [])
  | t :: ts =>
    let p := todoStore.create saveOk t s
    let q := runCreates saveOk ts p.1
    (q.1, p.2 :: q.2)

/-- Ids of the successfully created items, in call order. -/
def okIds : List (Except StoreError Todo) → List Int
  | [] => []
  | .ok t :: rs => t.id :: okIds rs
  | .error _ :: rs => okIds rs

/-- The counter strictly dominates every id in the collection. -/
abbrev idBound (s : todoStore) : Prop :=
  ∀ t ∈ s.todos, t.id < s.nextID

/-- The store's data-model invariant: the counter strictly dominates every
id in the collection and the ids are pairwise distinct. -/
abbrev storeInv (s : todoStore) : Prop :=
  idBound s ∧ (s.todos.map Todo.id).Nodup

/-- The next-identifier rule exactly as the spec words it: one greater than
the maximum `id` present, or `1` if the decoded collection is empty. -/
def specNextIdOfLoaded (ts : List Todo) : Int :=
  match ts.map Todo.id with
  | [] => 1
  | i :: is => is.foldl max i + 1

/-! ### Helper lemmas about the embedded operations -/

theorem create_eq_of_ne (saveOk : Bool) (title : String) (s : todoStore)
    (h : title ≠ "") :
    todoStore.create saveOk title s =
      ({ todos := s.todos ++ [{ id := s.nextID, title := title, completed := false }],
         nextID := s.nextID + 1 },
       if saveOk then
         .ok { id := s.nextID, title := title, completed := false }
       else .error .persistence) := by
  simp only [todoStore.create, if_neg h]
  cases saveOk <;> rfl

theorem findIndexByID_eq_none_iff (id : Int) (ts : List Todo) :
    todoStore.findIndexByID id ts = none ↔ ∀ t ∈ ts, t.id ≠ id := by
  induction ts with
  | nil => simp [todoStore.findIndexByID]
  | cons t ts ih =>
    by_cases h : t.id = id
    · simp [todoStore.findIndexByID, h]
    · simp [todoStore.findIndexByID, h, ih]

theorem findIndexByID_some (id : Int) (ts : List Todo) (i : Nat)
    (h : todoStore.findIndexByID id ts = some i) :
    ∃ t, ts[i]? = some t ∧ t.id = id := by
  induction ts generalizing i with
  | nil => simp [todoStore.findIndexByID] at h
  | cons t ts ih =>
    by_cases ht : t.id = id
    · simp only [todoStore.findIndexByID, if_pos ht, Option.some.injEq] at h
      subst h
      exact ⟨t, by simp, ht⟩
    · simp only [todoStore.findIndexByID, if_neg ht, Option.map_eq_some'] at h
      obtain ⟨j, hj, rfl⟩ := h
      simpa using ih j hj

theorem applyReq_id (req : updateTodoRequest) (t : Todo) :
    (todoStore.applyReq req t).id = t.id := by
  rcases req with ⟨rt, rc⟩
  cases rt <;> cases rc <;> rfl

/-! ### Claim theorems: validation errors -/

/-- Claim C4: `Create("")` fails with ValidationError and leaves the store
unchanged — the collection and the counter are untouched, and the result
does not depend on whether a write would succeed (no persistence write is
attempted, since validation happens before any mutation). -/
theorem create_empty_title_rejected (saveOk : Bool) (s : todoStore) :
    todoStore.create saveOk "" s = (s, .error .validation) := by
  simp [todoStore.create]

/-- Claim C9: any title other than the exact empty string is accepted: `create`
with a non-empty title (including whitespace-only titles such as a single
space) succeeds when the write succeeds, appends the item with the title
stored verbatim, and increments the counter. -/
theorem create_nonempty_title_verbatim (title : String) (s : todoStore)
    (h : title ≠ "") :
    todoStore.create true title s =
      ({ todos := s.todos ++ [{ id := s.nextID, title := title, completed := false }],
         nextID := s.nextID + 1 },
       .ok { id := s.nextID, title := title, completed := false }) := by
  rw [create_eq_of_ne true title s h]
  rfl

theorem create_nonempty_title_verbatim_witness :
    (" " : String) ≠ "" ∧
    todoStore.create true " " { todos := [], nextID := 1 } =
      ({ todos := [{ id := 1, title := " ", completed := false }], nextID := 2 },
       .ok { id := 1, title := " ", completed := false }) :=
  ⟨by decide, create_nonempty_title_verbatim " " { todos := [], nextID := 1 } (by decide)⟩

/-- Claim C5: `update` fails with NotFoundError when no item carries the id;
when the item exists and the provided title is the empty string, it fails
with ValidationError and changes nothing — in particular a simultaneously
provided `completed` value is not applied. -/
theorem update_notFound_and_empty_title (saveOk : Bool) (id : Int)
    (req : updateTodoRequest) (s : todoStore) :
    (todoStore.findIndexByID id s.todos = none →
      todoStore.update saveOk id req s = (s, .error .notFound)) ∧
    (∀ i, todoStore.findIndexByID id s.todos = some i → req.title = some "" →
      todoStore.update saveOk id req s = (s, .error .validation)) := by
  constructor
  · intro h
    simp [todoStore.update, h]
  · intro i h ht
    simp [todoStore.update, h, ht]

theorem update_notFound_and_empty_title_witness :
    todoStore.update true 9 { title := none, completed := some true }
        { todos := [{ id := 1, title := "x", completed := false }], nextID := 2 } =
      ({ todos := [{ id := 1, title := "x", completed := false }], nextID := 2 },
       .error .notFound) ∧
    todoStore.update true 1 { title := some "", completed := some true }
        { todos := [{ id := 1, title := "x", completed := false }], nextID := 2 } =
      ({ todos := [{ id := 1, title := "x", completed := false }], nextID := 2 },
       .error .validation) :=
  ⟨(update_notFound_and_empty_title true 9 { title := none, completed := some true }
      { todos := [{ id := 1, title := "x", completed := false }], nextID := 2 }).1
      (by decide),
   (update_notFound_and_empty_title true 1 { title := some "", completed := some true }
      { todos := [{ id := 1, title := "x", completed := false }], nextID := 2 }).2
      0 (by decide) rfl⟩

/-! ### Claim theorems: update frame property -/

/-- Claim C3: a successful `update` with an absent title and a provided completed
flag replaces only the targeted item's `completed` field: the item keeps its
`id` and `title`, every other item is untouched, insertion order and the
counter are unchanged (the new state is `set` at the found index).
Symmetrically, a provided non-empty title with an absent completed flag
changes only `title`. -/
theorem update_completed_only_frame (s : todoStore) (id : Int) (b : Bool)
    (i : Nat) (t0 : Todo)
    (hfind : todoStore.findIndexByID id s.todos = some i)
    (hget : s.todos[i]? = some t0) :
    todoStore.update true id { title := none, completed := some b } s =
      ({ s with todos := s.todos.set i { t0 with completed := b } },
       .ok { t0 with completed := b }) ∧
    ∀ nt, nt ≠ "" →
      todoStore.update true id { title := some nt, completed := none } s =
        ({ s with todos := s.todos.set i { t0 with title := nt } },
         .ok { t0 with title := nt }) := by
  constructor
  · simp [todoStore.update, hfind, hget, todoStore.applyReq]
  · intro nt hnt
    simp [todoStore.update, hfind, hget, todoStore.applyReq, hnt]

theorem update_completed_only_frame_witness :
    todoStore.update true 2 { title := none, completed := some true }
        { todos := [{ id := 1, title := "x", completed := false },
                    { id := 2, title := "y", completed := false }], nextID := 3 } =
      ({ todos := [{ id := 1, title := "x", completed := false },
                   { id := 2, title := "y", completed := true }], nextID := 3 },
       .ok { id := 2, title := "y", completed := true }) ∧
    todoStore.update true 2 { title := some "z", completed := none }
        { todos := [{ id := 1, title := "x", completed := false },
                    { id := 2, title := "y", completed := false }], nextID := 3 } =
      ({ todos := [{ id := 1, title := "x", completed := false },
                   { id := 2, title := "z", completed := false }], nextID := 3 },
       .ok { id := 2, title := "z", completed := false }) := by
  have h := update_completed_only_frame
      { todos := [{ id := 1, title := "x", completed := false },
                  { id := 2, title := "y", completed := false }], nextID := 3 }
      2 true 1 { id := 2, title := "y", completed := false } (by decide) (by decide)
  exact ⟨h.1, h.2 "z" (by decide)⟩

/-! ### Claim theorems: delete -/

theorem findIndexByID_eraseIdx (id : Int) (ts : List Todo) (i : Nat)
    (hnd : (ts.map Todo.id).Nodup)
    (h : todoStore.findIndexByID id ts = some i) :
    todoStore.findIndexByID id (ts.eraseIdx i) = none := by
  induction ts generalizing i with
  | nil => simp [todoStore.findIndexByID] at h
  | cons t ts ih =>
    rw [List.map_cons, List.nodup_cons] at hnd
    by_cases ht : t.id = id
    · simp only [todoStore.findIndexByID, if_pos ht, Option.some.injEq] at h
      subst h
      rw [List.eraseIdx_cons_zero, findIndexByID_eq_none_iff]
      intro u hu he
      exact hnd.1 (ht ▸ he ▸ List.mem_map_of_mem Todo.id hu)
    · simp only [todoStore.findIndexByID, if_neg ht, Option.map_eq_some'] at h
      obtain ⟨j, hj, rfl⟩ := h
      rw [List.eraseIdx_cons_succ]
      simp [todoStore.findIndexByID, ht, ih j hnd.2 hj]

/-- Claim C6: `delete` fails with NotFoundError and leaves the store unchanged
when no item carries the id; when the item is at index `i`, it removes
exactly that item, keeping the remaining items in their relative order
(the result is `take i ++ drop (i+1)`); and, provided the ids are pairwise
distinct, any later `update` or second `delete` with the same id fails with
NotFoundError and changes nothing. -/
theorem delete_removes_and_then_notFound (s : todoStore) (id : Int)
    (b b' : Bool) (i : Nat) (req : updateTodoRequest) :
    (todoStore.findIndexByID id s.todos = none →
      todoStore.delete b id s = (s, .error .notFound)) ∧
    (todoStore.findIndexByID id s.todos = some i →
      todoStore.delete true id s = ({ s with todos := s.todos.eraseIdx i }, .ok ()) ∧
      s.todos.eraseIdx i = s.todos.take i ++ s.todos.drop (i + 1) ∧
      ((s.todos.map Todo.id).Nodup →
        todoStore.update b' id req { s with todos := s.todos.eraseIdx i } =
          ({ s with todos := s.todos.eraseIdx i }, .error .notFound) ∧
        todoStore.delete b' id { s with todos := s.todos.eraseIdx i } =
          ({ s with todos := s.todos.eraseIdx i }, .error .notFound))) := by
  constructor
  · intro h
    simp [todoStore.delete, h]
  · intro h
    refine ⟨by simp [todoStore.delete, h], List.eraseIdx_eq_take_drop_succ s.todos i, ?_⟩
    intro hnd
    have hnone : todoStore.findIndexByID id (s.todos.eraseIdx i) = none :=
      findIndexByID_eraseIdx id s.todos i hnd h
    exact ⟨by simp [todoStore.update, hnone], by simp [todoStore.delete, hnone]⟩

theorem delete_removes_and_then_notFound_witness :
    todoStore.delete true 9
        { todos := [{ id := 1, title := "a", completed := false }], nextID := 2 } =
      ({ todos := [{ id := 1, title := "a", completed := false }], nextID := 2 },
       .error .notFound) ∧
    todoStore.delete true 1
        { todos := [{ id := 1, title := "a", completed := false },
                    { id := 2, title := "b", completed := false }], nextID := 3 } =
      ({ todos := [{ id := 2, title := "b", completed := false }], nextID := 3 }, .ok ()) ∧
    todoStore.update true 1 { title := none, completed := some true }
        { todos := [{ id := 2, title := "b", completed := false }], nextID := 3 } =
      ({ todos := [{ id := 2, title := "b", completed := false }], nextID := 3 },
       .error .notFound) ∧
    todoStore.delete true 1
        { todos := [{ id := 2, title := "b", completed := false }], nextID := 3 } =
      ({ todos := [{ id := 2, title := "b", completed := false }], nextID := 3 },
       .error .notFound) := by
  have h1 := (delete_removes_and_then_notFound
      { todos := [{ id := 1, title := "a", completed := false }], nextID := 2 }
      9 true true 0 { title := none, completed := some true }).1 (by decide)
  have h2 := (delete_removes_and_then_notFound
      { todos := [{ id := 1, title := "a", completed := false },
                  { id := 2, title := "b", completed := false }], nextID := 3 }
      1 true true 0 { title := none, completed := some true }).2 (by decide)
  exact ⟨h1, h2.1, (h2.2.2 (by decide)).1, (h2.2.2 (by decide)).2⟩

/-! ### Claim theorems: persistence failure -/

/-- Claim C7: when the write fails (`saveOk = false`), each mutating operation
reports a persistence error while the in-memory mutation stays applied:
a failed `create` leaves the new item appended and the counter incremented
(so the in-memory collection now differs from the one the unchanged disk
still holds — they diverge), a failed `delete` leaves the item removed, and
a failed `update` leaves the provided fields set. -/
theorem persistence_failure_keeps_mutation (s : todoStore) (title : String)
    (disk : FileState) (id : Int) (i : Nat) (req : updateTodoRequest)
    (t0 : Todo) :
    (title ≠ "" →
      todoStore.create false title s =
        ({ todos := s.todos ++ [{ id := s.nextID, title := title, completed := false }],
           nextID := s.nextID + 1 }, .error .persistence) ∧
      (todoStore.create false title s).1.todos ≠ s.todos ∧
      todoStore.writeFile false (todoStore.create false title s).1.todos disk = disk) ∧
    (todoStore.findIndexByID id s.todos = some i →
      todoStore.delete false id s =
        ({ s with todos := s.todos.eraseIdx i }, .error .persistence)) ∧
    (todoStore.findIndexByID id s.todos = some i → s.todos[i]? = some t0 →
      req.title ≠ some "" →
      todoStore.update false id req s =
        ({ s with todos := s.todos.set i (todoStore.applyReq req t0) },
         .error .persistence)) := by
  refine ⟨fun h => ⟨?_, ?_, ?_⟩, fun h => ?_, fun h hget ht => ?_⟩
  · rw [create_eq_of_ne false title s h]
    rfl
  · rw [create_eq_of_ne false title s h]
    intro he
    have := congrArg List.length he
    simp at this
  · rfl
  · simp [todoStore.delete, h]
  · simp [todoStore.update, h, hget, ht]

theorem persistence_failure_keeps_mutation_witness :
    todoStore.create false "milk" { todos := [], nextID := 1 } =
      ({ todos := [{ id := 1, title := "milk", completed := false }], nextID := 2 },
       .error .persistence) ∧
    (todoStore.create false "milk" { todos := [], nextID := 1 }).1.todos ≠ [] ∧
    todoStore.writeFile false
        (todoStore.create false "milk" { todos := [], nextID := 1 }).1.todos
        (.wellFormed []) = .wellFormed [] ∧
    todoStore.delete false 1
        { todos := [{ id := 1, title := "milk", completed := false }], nextID := 2 } =
      ({ todos := [], nextID := 2 }, .error .persistence) ∧
    todoStore.update false 1 { title := none, completed := some true }
        { todos := [{ id := 1, title := "milk", completed := false }], nextID := 2 } =
      ({ todos := [{ id := 1, title := "milk", completed := true }], nextID := 2 },
       .error .persistence) := by
  have h1 := (persistence_failure_keeps_mutation { todos := [], nextID := 1 }
      "milk" (.wellFormed []) 1 0 { title := none, completed := some true }
      { id := 1, title := "milk", completed := false }).1 (by decide)
  have h2 := (persistence_failure_keeps_mutation
      { todos := [{ id := 1, title := "milk", completed := false }], nextID := 2 }
      "milk" (.wellFormed []) 1 0 { title := none, completed := some true }
      { id := 1, title := "milk", completed := false }).2
  exact ⟨h1.1, h1.2.1, h1.2.2, h2.1 (by decide), h2.2 (by decide) (by decide) (by decide)⟩

/-! ### Lemmas about the `maxID` fold -/

theorem foldl_maxID_ge_init (ts : List Todo) (a : Int) :
    a ≤ ts.foldl (fun m t => if t.id > m then t.id else m) a := by
  induction ts generalizing a with
  | nil => simp
  | cons t ts ih =>
    simp only [List.foldl_cons]
    calc a ≤ (if t.id > a then t.id else a) := by split <;> omega
    _ ≤ _ := ih _

theorem foldl_maxID_ge_mem (ts : List Todo) (a : Int) :
    ∀ t ∈ ts, t.id ≤ ts.foldl (fun m t => if t.id > m then t.id else m) a := by
  induction ts generalizing a with
  | nil => simp
  | cons u ts ih =>
    intro t ht
    rcases List.mem_cons.1 ht with rfl | ht
    · simp only [List.foldl_cons]
      calc t.id ≤ (if t.id > a then t.id else a) := by split <;> omega
      _ ≤ _ := foldl_maxID_ge_init ts _
    · simpa only [List.foldl_cons] using ih _ t ht

theorem foldl_maxID_mem_or_init (ts : List Todo) (a : Int) :
    ts.foldl (fun m t => if t.id > m then t.id else m) a = a ∨
    ts.foldl (fun m t => if t.id > m then t.id else m) a ∈ ts.map Todo.id := by
  induction ts generalizing a with
  | nil => simp
  | cons t ts ih =>
    simp only [List.foldl_cons, List.map_cons]
    rcases ih (if t.id > a then t.id else a) with h | h
    · rw [h]
      by_cases hc : t.id > a
      · right
        rw [if_pos hc]
        exact List.mem_cons_self _ _
      · left
        rw [if_neg hc]
    · right
      exact List.mem_cons_of_mem _ h

theorem maxID_nonneg (ts : List Todo) : 0 ≤ maxID ts :=
  foldl_maxID_ge_init ts 0

theorem le_maxID_of_mem (ts : List Todo) : ∀ t ∈ ts, t.id ≤ maxID ts :=
  foldl_maxID_ge_mem ts 0

theorem maxID_eq_zero_or_mem (ts : List Todo) :
    maxID ts = 0 ∨ maxID ts ∈ ts.map Todo.id :=
  foldl_maxID_mem_or_init ts 0

/-! ### Claim theorems: the counter dominates every id -/

/-- Claim C8: after a successful construction the counter strictly exceeds every
id in the loaded collection, including ids that came from the backing file;
each of `create`, `update`, `delete` preserves this bound on the resulting
in-memory state whether or not it succeeds, and `list` returns the
collection without touching the state at all. -/
theorem nextID_dominates_invariant (f : FileState) (s s0 : todoStore)
    (b : Bool) (title : String) (id : Int) (req : updateTodoRequest) :
    (todoStore.load f = .ok s0 → idBound s0) ∧
    (idBound s → idBound (todoStore.create b title s).1) ∧
    (idBound s → idBound (todoStore.update b id req s).1) ∧
    (idBound s → idBound (todoStore.delete b id s).1) ∧
    todoStore.list s = s.todos := by
  refine ⟨?_, ?_, ?_, ?_, rfl⟩
  · intro h
    cases f with
    | missing => cases h; intro t ht; simp at ht
    | emptyFile => cases h; intro t ht; simp at ht
    | malformed => cases h
    | wellFormed ts =>
      cases h
      intro t ht
      have := le_maxID_of_mem ts t ht
      simp only
      omega
  · intro h
    by_cases ht : title = ""
    · subst ht
      simpa [todoStore.create] using h
    · rw [create_eq_of_ne b title s ht]
      intro t htm
      rcases List.mem_append.1 htm with hm | hm
      · have := h t hm
        simp only
        omega
      · simp only [List.mem_singleton] at hm
        subst hm
        simp only
        omega
  · intro h
    unfold todoStore.update
    split
    · exact h
    · split
      · exact h
      · split
        · exact h
        · next t0 hget =>
          have ht0 : t0 ∈ s.todos := by
            obtain ⟨hi, he⟩ := List.getElem?_eq_some.1 hget
            exact he ▸ List.getElem_mem hi
          split <;>
          · intro t htm
            rcases List.mem_or_eq_of_mem_set htm with hm | rfl
            · exact h t hm
            · simpa only [applyReq_id] using h t0 ht0
  · intro h
    unfold todoStore.delete
    split
    · exact h
    · split <;>
      · intro t htm
        exact h t (List.mem_of_mem_eraseIdx htm)

theorem nextID_dominates_invariant_witness :
    idBound { todos := [{ id := 7, title := "a", completed := false }], nextID := 8 } ∧
    idBound (todoStore.create true "t"
      { todos := [{ id := 1, title := "a", completed := false }], nextID := 2 }).1 ∧
    idBound (todoStore.update true 1 { title := some "u", completed := some true }
      { todos := [{ id := 1, title := "a", completed := false }], nextID := 2 }).1 ∧
    idBound (todoStore.delete true 1
      { todos := [{ id := 1, title := "a", completed := false }], nextID := 2 }).1 ∧
    todoStore.list { todos := [{ id := 1, title := "a", completed := false }], nextID := 2 } =
      [{ id := 1, title := "a", completed := false }] := by
  have h1 := (nextID_dominates_invariant (.wellFormed [{ id := 7, title := "a", completed := false }])
      { todos := [{ id := 1, title := "a", completed := false }], nextID := 2 }
      { todos := [{ id := 7, title := "a", completed := false }], nextID := 8 }
      true "t" 1 { title := some "u", completed := some true })
  exact ⟨h1.1 rfl, h1.2.1 (by decide), h1.2.2.1 (by decide),
    h1.2.2.2.1 (by decide), h1.2.2.2.2⟩

/-! ### Lemmas about serial sequences of creates -/

theorem runCreates_okIds (titles : List String) (s : todoStore)
    (h : ∀ t ∈ titles, t ≠ "") :
    okIds (runCreates true titles s).2 =
      (List.range titles.length).map (fun i : Nat => s.nextID + (i : Int)) ∧
    (runCreates true titles s).1.nextID = s.nextID + titles.length := by
  induction titles generalizing s with
  | nil => simp [runCreates, okIds]
  | cons t ts ih =>
    have ht : t ≠ "" := h t (List.mem_cons_self t ts)
    have hts : ∀ u ∈ ts, u ≠ "" := fun u hu => h u (List.mem_cons_of_mem t hu)
    simp only [runCreates]
    rw [create_eq_of_ne true t s ht]
    simp only [if_pos rfl, okIds]
    obtain ⟨ih1, ih2⟩ := ih ⟨s.todos ++ [⟨s.nextID, t, false⟩], s.nextID + 1⟩ hts
    constructor
    · rw [ih1, List.length_cons, List.range_succ_eq_map, List.map_cons, List.map_map]
      congr 1
      · simp
      · refine List.map_congr_left fun i hi => ?_
        simp only [Function.comp_apply]
        push_cast
        ring
    · rw [ih2]
      simp only [List.length_cons]
      push_cast
      ring

theorem runCreates_all_ok (titles : List String) (s : todoStore)
    (h : ∀ t ∈ titles, t ≠ "") :
    ∀ r ∈ (runCreates true titles s).2, ∃ t, r = .ok t := by
  induction titles generalizing s with
  | nil => simp [runCreates]
  | cons t ts ih =>
    have ht : t ≠ "" := h t (List.mem_cons_self t ts)
    have hts : ∀ u ∈ ts, u ≠ "" := fun u hu => h u (List.mem_cons_of_mem t hu)
    simp only [runCreates]
    rw [create_eq_of_ne true t s ht]
    simp only [if_pos rfl]
    intro r hr
    rcases List.mem_cons.1 hr with rfl | hr
    · exact ⟨_, rfl⟩
    · exact ih _ hts r hr

theorem storeInv_create (b : Bool) (title : String) (s : todoStore)
    (h : storeInv s) : storeInv (todoStore.create b title s).1 := by
  by_cases ht : title = ""
  · subst ht
    simpa [todoStore.create] using h
  · rw [create_eq_of_ne b title s ht]
    obtain ⟨h1, h2⟩ := h
    constructor
    · intro t htm
      rcases List.mem_append.1 htm with hm | hm
      · have := h1 t hm
        simp only
        omega
      · simp only [List.mem_singleton] at hm
        subst hm
        simp only
        omega
    · simp only [List.map_append, List.map_singleton]
      rw [List.nodup_append]
      refine ⟨h2, List.nodup_singleton _, fun a ha hb => ?_⟩
      simp only [List.mem_singleton] at hb
      subst hb
      obtain ⟨t, htm, hid⟩ := List.mem_map.1 ha
      have := h1 t htm
      omega

theorem storeInv_runCreates (b : Bool) (titles : List String) (s : todoStore)
    (h : storeInv s) : storeInv (runCreates b titles s).1 := by
  induction titles generalizing s with
  | nil => simpa [runCreates] using h
  | cons t ts ih =>
    simp only [runCreates]
    exact ih _ (storeInv_create b t s h)

/-! ### Claim theorems: serial creates -/

/-- Claim C1: starting from any store satisfying the data-model invariant
(counter above every id, ids pairwise distinct), a serial sequence of
`create` calls with non-empty titles and successful writes succeeds on every
call, assigns ids that are strictly increasing in call order, and keeps the
ids in the collection pairwise distinct after every prefix of the
sequence. -/
theorem create_seq_ids_increasing_and_distinct (titles : List String)
    (s : todoStore) (hne : ∀ t ∈ titles, t ≠ "") (hinv : storeInv s) :
    (∀ r ∈ (runCreates true titles s).2, ∃ t, r = .ok t) ∧
    List.Pairwise (· < ·) (okIds (runCreates true titles s).2) ∧
    ∀ n : Nat, (((runCreates true (titles.take n) s).1).todos.map Todo.id).Nodup := by
  refine ⟨runCreates_all_ok titles s hne, ?_, ?_⟩
  · rw [(runCreates_okIds titles s hne).1]
    refine List.Pairwise.map _ (fun a b hab => ?_) (List.pairwise_lt_range _)
    omega
  · intro n
    have hne' : ∀ t ∈ titles.take n, t ≠ "" := fun t htm => hne t (List.mem_of_mem_take htm)
    exact (storeInv_runCreates true (titles.take n) s hinv).2

theorem create_seq_ids_increasing_and_distinct_witness :
    (∀ r ∈ (runCreates true ["a", "b", "c"] { todos := [], nextID := 1 }).2,
      ∃ t, r = .ok t) ∧
    List.Pairwise (· < ·)
      (okIds (runCreates true ["a", "b", "c"] { todos := [], nextID := 1 }).2) ∧
    (((runCreates true (["a", "b", "c"].take 2) { todos := [], nextID := 1 }).1).todos.map
      Todo.id).Nodup := by
  have h := create_seq_ids_increasing_and_distinct ["a", "b", "c"]
      { todos := [], nextID := 1 } (by decide) (by decide)
  exact ⟨h.1, h.2.1, h.2.2 2⟩

/-! ### Lemmas relating the Go fold to the true maximum -/

theorem init_le_foldl_max (l : List Int) (a : Int) : a ≤ l.foldl max a := by
  induction l generalizing a with
  | nil => simp
  | cons x l ih =>
    simp only [List.foldl_cons]
    exact le_trans (le_max_left a x) (ih _)

theorem mem_le_foldl_max (l : List Int) (a : Int) : ∀ x ∈ l, x ≤ l.foldl max a := by
  induction l generalizing a with
  | nil => simp
  | cons y l ih =>
    intro x hx
    rcases List.mem_cons.1 hx with rfl | hx
    · simp only [List.foldl_cons]
      exact le_trans (le_max_right a x) (init_le_foldl_max l _)
    · simpa only [List.foldl_cons] using ih _ x hx

theorem foldl_max_max (l : List Int) (a b : Int) :
    l.foldl max (max a b) = max a (l.foldl max b) := by
  induction l generalizing b with
  | nil => simp
  | cons x l ih =>
    simp only [List.foldl_cons, max_assoc]
    exact ih _

theorem foldl_ifmax_eq_foldl_max (l : List Int) (a : Int) :
    l.foldl (fun m i => if i > m then i else m) a = l.foldl max a := by
  induction l generalizing a with
  | nil => rfl
  | cons x l ih =>
    simp only [List.foldl_cons]
    rw [show (if x > a then x else a) = max a x by
      rcases le_or_lt x a with h | h
      · rw [if_neg (not_lt.2 h), max_eq_left h]
      · rw [if_pos h, max_eq_right h.le]]
    exact ih _

theorem maxID_eq_foldl_max (ts : List Todo) :
    maxID ts = (ts.map Todo.id).foldl max 0 := by
  rw [maxID, ← foldl_ifmax_eq_foldl_max, List.foldl_map]

theorem maxID_eq_spec_of_pos (ts : List Todo) (t : Todo) (htm : t ∈ ts)
    (hpos : 0 < t.id) : maxID ts + 1 = specNextIdOfLoaded ts := by
  cases hmap : ts.map Todo.id with
  | nil =>
    have : t.id ∈ ts.map Todo.id := List.mem_map_of_mem Todo.id htm
    rw [hmap] at this
    simp at this
  | cons i is =>
    have hmax : maxID ts = max 0 (is.foldl max i) := by
      rw [maxID_eq_foldl_max, hmap, List.foldl_cons, foldl_max_max]
    have hspec : specNextIdOfLoaded ts = is.foldl max i + 1 := by
      unfold specNextIdOfLoaded
      rw [hmap]
    have hle : t.id ≤ is.foldl max i := by
      have hin : t.id ∈ i :: is := hmap ▸ List.mem_map_of_mem Todo.id htm
      rcases List.mem_cons.1 hin with he | hmem
      · exact he ▸ init_le_foldl_max is i
      · exact mem_le_foldl_max is i t.id hmem
    have hpos' : 0 < is.foldl max i := lt_of_lt_of_le hpos hle
    rw [hmax, hspec, max_eq_right hpos'.le]

/-! ### Claim theorems: load -/

/-- Claim C2, counterexample: for a non-empty backing resource that decodes to a
single item with id `-5`, the code sets the counter to `1` (the fold starts
at `0`), whereas the claim's rule "one greater than the maximum id present"
demands `-4`; the two resulting stores differ. -/
theorem load_nextID_spec_counterexample :
    todoStore.load (.wellFormed [{ id := -5, title := "a", completed := false }]) =
      .ok { todos := [{ id := -5, title := "a", completed := false }], nextID := 1 } ∧
    specNextIdOfLoaded [{ id := -5, title := "a", completed := false }] = -4 ∧
    ({ todos := [{ id := -5, title := "a", completed := false }],
       nextID := 1 } : todoStore) ≠
      { todos := [{ id := -5, title := "a", completed := false }],
        nextID := specNextIdOfLoaded [{ id := -5, title := "a", completed := false }] } := by
  refine ⟨rfl, rfl, ?_⟩
  decide

/-- Claim C2 as amended: a missing or empty resource initializes the store to the
empty collection with counter `1`; a resource that decodes successfully
installs the decoded sequence unchanged and sets the counter to one greater
than the maximum of `0` and the ids present — which agrees with the claim's
"one greater than the maximum id present" whenever some id is positive
(in particular for any resource the store itself wrote), and is `1` when
the decoded collection is empty or holds only non-positive ids.  For the
resource with ids {1,3,7} the fresh store assigns id `8` to its next
`create`. -/
theorem load_initializes_amended (ts : List Todo) :
    todoStore.load .missing = .ok { todos := [], nextID := 1 } ∧
    todoStore.load .emptyFile = .ok { todos := [], nextID := 1 } ∧
    todoStore.load (.wellFormed ts) = .ok { todos := ts, nextID := maxID ts + 1 } ∧
    0 ≤ maxID ts ∧ (∀ t ∈ ts, t.id ≤ maxID ts) ∧
    (maxID ts = 0 ∨ maxID ts ∈ ts.map Todo.id) ∧
    ((∃ t ∈ ts, 0 < t.id) → maxID ts + 1 = specNextIdOfLoaded ts) ∧
    todoStore.load (.wellFormed
        [{ id := 1, title := "a", completed := false },
         { id := 3, title := "b", completed := false },
         { id := 7, title := "c", completed := false }]) =
      .ok { todos := [{ id := 1, title := "a", completed := false },
                      { id := 3, title := "b", completed := false },
                      { id := 7, title := "c", completed := false }], nextID := 8 } ∧
    (todoStore.create true "next"
        { todos := [{ id := 1, title := "a", completed := false },
                    { id := 3, title := "b", completed := false },
                    { id := 7, title := "c", completed := false }], nextID := 8 }).2 =
      .ok { id := 8, title := "next", completed := false } := by
  refine ⟨rfl, rfl, rfl, maxID_nonneg ts, le_maxID_of_mem ts, maxID_eq_zero_or_mem ts,
    ?_, rfl, rfl⟩
  rintro ⟨t, htm, hpos⟩
  exact maxID_eq_spec_of_pos ts t htm hpos
